import Mathlib

/-!
Shallow embedding of the WordPress import converter
(nikola/plugins/command/import_wordpress.py) and proofs about it.

Strings are modelled as `String` (a structure holding a `List Char`); byte
strings of the XML preprocessor are modelled as `List Char` as well, since the
source only inspects bytes for ASCII whitespace, `\n`, and literal markers.
Python regular-expression substitutions (`re.sub`) are modelled by a fuelled
left-to-right scanner `scanSub` together with one matcher per pattern, each
reproducing the exact (greedy, newline-aware) semantics of its pattern.
Fallible Python code (expressions that raise on `None`) is modelled with
`Except`.
-/

namespace WpImport

/-- ASCII whitespace set of Python str.strip() (the inputs handled here are
ASCII-oriented; unicode whitespace beyond these is not exercised). -/
def isPyWs (c : Char) : Bool :=
  c = ' ' || c = '\t' || c = '\n' || c = '\r' || c = '\x0B' || c = '\x0C'

/-- Python str.strip() on the character list. -/
def pyStripL (l : List Char) : List Char :=
  ((l.dropWhile isPyWs).reverse.dropWhile isPyWs).reverse

/-- Python str.strip() (no arguments: whitespace). -/
def pyStrip (s : String) : String := ⟨pyStripL s.data⟩

/-- Python str.strip(chars): strip any of the given characters from both ends. -/
def pyStripChars (s : String) (set : List Char) : String :=
  ⟨((s.data.dropWhile set.contains).reverse.dropWhile set.contains).reverse⟩

/-- Python str.lstrip(chars): strip any of the given characters from the left. -/
def pyLstripSet (set : List Char) (s : String) : String :=
  ⟨s.data.dropWhile set.contains⟩

/-- Whether pat occurs as a contiguous substring (Python `in`). -/
def hasSubstr (pat : List Char) : List Char → Bool
  | [] => pat.isEmpty
  | c :: cs => pat.isPrefixOf (c :: cs) || hasSubstr pat cs

/-- Python str.split(sep) for a non-empty separator, fuelled
(each step consumes at least one character; fuel = length + 1 suffices). -/
def pySplitGo (sep : List Char) : Nat → List Char → List Char → List (List Char)
  | 0, acc, l => [acc.reverse ++ l]
  | n + 1, acc, l =>
    if sep.isPrefixOf l then acc.reverse :: pySplitGo sep n [] (l.drop sep.length)
    else
      match l with
      | [] => [acc.reverse]
      | c :: cs => pySplitGo sep n (c :: acc) cs

/-- Python str.split(sep) on character lists (sep non-empty). -/
def pySplitL (sep l : List Char) : List (List Char) :=
  pySplitGo sep (l.length + 1) [] l

/-- Python str.split(sep) on strings. -/
def pySplitStr (s sep : String) : List String :=
  (pySplitL sep.data s.data).map fun p => ⟨p⟩

/-- Python sep.join(list). -/
def pyJoin (sep : String) : List String → String
  | [] => ""
  | [x] => x
  | x :: y :: xs => x ++ sep ++ pyJoin sep (y :: xs)

/-!  re.sub modelled as a fuelled left-to-right scanner.  A matcher takes the
current suffix and returns `some (k, rep)` when the pattern matches there,
consuming `k ≥ 1` characters and emitting `rep`; the scanner then continues
after the match (Python's non-overlapping leftmost semantics).  -/

def scanSub (m : List Char → Option (Nat × List Char)) : Nat → List Char → List Char
  | 0, l => l
  | _ + 1, [] => []
  | n + 1, c :: cs =>
    match m (c :: cs) with
    | some (k, rep) => rep ++ scanSub m n ((c :: cs).drop k)
    | none => c :: scanSub m n cs

/-- Matcher for a literal pattern (also models Python str.replace). -/
def mLiteral (pat rep : List Char) (l : List Char) : Option (Nat × List Char) :=
  if pat.isPrefixOf l then some (pat.length, rep) else none

def scOpenPat : List Char := "[sourcecode language=\"".data

/-- Matcher for the regex \[sourcecode language="([^"]+)"\] with replacement
"\n~~~~~~~~~~~~{.\1}\n": after the literal prefix, the greedy [^"]+ group is
exactly the maximal run of non-quote characters, which must be non-empty and
be followed by the two characters `"]`. -/
def mSourceOpen (l : List Char) : Option (Nat × List Char) :=
  if scOpenPat.isPrefixOf l then
    let r := l.drop scOpenPat.length
    let lang := r.takeWhile fun c => c ≠ '"'
    if lang.isEmpty then none
    else if ['"', ']'].isPrefixOf (r.drop lang.length) then
      some (scOpenPat.length + lang.length + 2,
            "\n~~~~~~~~~~~~\x7b.".data ++ lang ++ "\x7d\n".data)
    else none
  else none

def capOpenPat : List Char := "[caption".data

/-- Matcher for the regex \[caption.*\] with replacement '': `.` does not match
newlines, and the greedy `.*` extends the match to the last `]` on the line,
which must exist for the pattern to match at this position. -/
def mCaptionOpen (l : List Char) : Option (Nat × List Char) :=
  if capOpenPat.isPrefixOf l then
    let line := (l.drop capOpenPat.length).takeWhile fun c => c ≠ '\n'
    if line.contains ']' then
      some (capOpenPat.length +
              (line.length - (line.reverse.takeWhile fun c => c ≠ ']').length), [])
    else none
  else none

/-- Matcher for the regex \n{3,} with replacement "\n\n": a maximal run of at
least three newlines. -/
def mNewlines (l : List Char) : Option (Nat × List Char) :=
  let run := (l.takeWhile fun c => c = '\n').length
  if 3 ≤ run then some (run, ['\n', '\n']) else none

/-- transform_sourcecode: the regex substitution for the opening shortcode,
then str.replace of the literal closing shortcode. -/
def transformSourcecodeL (l : List Char) : List Char :=
  let t := scanSub mSourceOpen l.length l
  scanSub (mLiteral "[/sourcecode]".data "\n~~~~~~~~~~~~\n".data) t.length t

/-- transform_caption: remove every literal `[/caption]`, then every
`\[caption.*\]` match. -/
def transformCaptionL (l : List Char) : List Char :=
  let t := scanSub (mLiteral "[/caption]".data []) l.length l
  scanSub mCaptionOpen t.length t

/-- transform_multiple_newlines: squash runs of three or more newlines to two,
only when the squash_newlines option is set. -/
def transformMultipleNewlinesL (squash : Bool) (l : List Char) : List Char :=
  if squash then scanSub mNewlines l.length l else l

/-- transform_content: sourcecode rewrite, then caption strip, then optional
newline squashing. -/
def transformContentL (squash : Bool) (l : List Char) : List Char :=
  transformMultipleNewlinesL squash (transformCaptionL (transformSourcecodeL l))

def transformSourcecode (s : String) : String := ⟨transformSourcecodeL s.data⟩

def transformCaption (s : String) : String := ⟨transformCaptionL s.data⟩

def transformContent (squash : Bool) (s : String) : String :=
  ⟨transformContentL squash s.data⟩

/-!  separate_qtranslate_content.  Python dicts are insertion-ordered, so
content_by_lang is modelled as an association list; an update of an existing
key keeps its position, a new key is appended at the end.  -/

/-- Intermediate state of the chunk loop: content_by_lang and common_txt_list. -/
structure QtState where
  byLang : List (String × List String)
  common : List String
deriving DecidableEq

/-- content_by_lang[lang] = content_by_lang.get(lang, common_txt_list) + [c]. -/
def qtUpsert (d : List (String × List String)) (common : List String)
    (lang c : String) : List (String × List String) :=
  if d.any fun p => p.1 = lang then
    d.map fun p => if p.1 = lang then (p.1, p.2 ++ [c]) else p
  else d ++ [(lang, common ++ [c])]

/-- Common text: append to common_txt_list and to every language seen so far. -/
def qtCommon (st : QtState) (c : String) : QtState :=
  ⟨st.byLang.map fun p => (p.1, p.2 ++ [c]), st.common ++ [c]⟩

/-- One iteration of the loop over the chunks produced by splitting on the
marker-open token. -/
def qtStep (st : QtState) (c : String) : QtState :=
  if pyStrip c = "" then st
  else if "-->".data.isPrefixOf c.data then
    let c1 := pyLstripSet ['-', '>'] c
    if c1 = "" then st else qtCommon st c1
  else if "-->".data.isPrefixOf (c.drop 2).data then
    ⟨qtUpsert st.byLang st.common (c.take 2) (c.drop 5), st.common⟩
  else qtCommon st c

/-- separate_qtranslate_content: split on the marker-open token, classify each
chunk, then join each language's chunk list with single spaces. -/
def separateQtranslateContent (text : String) : List (String × String) :=
  let chunks := (pySplitL "<!--:".data text.data).map fun p => (⟨p⟩ : String)
  let st := chunks.foldl qtStep ⟨[], []⟩
  let d := if st.common ≠ [] ∧ st.byLang = [] then [("", st.common)] else st.byLang
  d.map fun p => (p.1, pyJoin " " p.2)

/-!  The XML tree consumed by the per-item importer.  Only the structure used
by the source is modelled: a node has a tag, text content (None for an empty
element), and children; `find` returns the first child with a matching tag,
`findall` all of them.  -/

inductive XTree where
  | mk (tag : String) (text : Option String) (children : List XTree)

def XTree.tag : XTree → String
  | .mk t _ _ => t

def XTree.text : XTree → Option String
  | .mk _ x _ => x

def XTree.children : XTree → List XTree
  | .mk _ _ c => c

def XTree.find (t : XTree) (name : String) : Option XTree :=
  t.children.find? fun c => c.tag = name

def XTree.findall (t : XTree) (name : String) : List XTree :=
  t.children.filter fun c => c.tag = name

/-- get_text_tag: if the node is None return the default; else find the named
child and return its text if the child exists, the default otherwise.  Total
by construction, hence it never raises. -/
def getTextTag (tag : Option XTree) (name : String) (default : Option String) :
    Option String :=
  match tag with
  | none => default
  | some tg =>
    match tg.find name with
    | some t => t.text
    | none => default

/-- ElementTree-style namespace-qualified tag name: "{ns}field". -/
def nsTag (ns field : String) : String := "\x7b" ++ ns ++ "\x7d" ++ field

def contentEncodedTag : String :=
  "\x7bhttp://purl.org/rss/1.0/modules/content/\x7dencoded"

/-!  urllib / os.path helpers, restricted to the shapes the importer feeds
them (absolute http(s) URLs and relative URL paths; posix separators).  -/

/-- Drop everything up to and including the first "://" if present. -/
def dropSchemeSep : List Char → Option (List Char)
  | [] => none
  | c :: cs =>
    if [':', '/', '/'].isPrefixOf (c :: cs) then some ((c :: cs).drop 3)
    else dropSchemeSep cs

/-- urlparse(url).path: after scheme://, skip the netloc (up to the first '/',
'?' or '#'); the path ends at the first '?' or '#'. -/
def urlparsePathL (l : List Char) : List Char :=
  match dropSchemeSep l with
  | some r =>
    (r.dropWhile fun c => c ≠ '/' && c ≠ '?' && c ≠ '#').takeWhile
      fun c => c ≠ '?' && c ≠ '#'
  | none => l.takeWhile fun c => c ≠ '?' && c ≠ '#'

def urlparsePath (s : String) : String := ⟨urlparsePathL s.data⟩

/-- unquote: percent-decoding of %XX hex escapes.  Each escape is decoded to
the character of its byte value (multi-byte UTF-8 sequences are not modelled;
the importer's inputs here are ASCII). -/
def hexVal (c : Char) : Option Nat :=
  if '0' ≤ c ∧ c ≤ '9' then some (c.toNat - '0'.toNat)
  else if 'a' ≤ c ∧ c ≤ 'f' then some (c.toNat - 'a'.toNat + 10)
  else if 'A' ≤ c ∧ c ≤ 'F' then some (c.toNat - 'A'.toNat + 10)
  else none

def pyUnquoteL : List Char → List Char
  | '%' :: h1 :: h2 :: rest =>
    match hexVal h1, hexVal h2 with
    | some a, some b => Char.ofNat (16 * a + b) :: pyUnquoteL rest
    | _, _ => '%' :: pyUnquoteL (h1 :: h2 :: rest)
  | c :: rest => c :: pyUnquoteL rest
  | [] => []

def pyUnquote (s : String) : String := ⟨pyUnquoteL s.data⟩

/-- os.path.join on posix: a component starting with '/' restarts the result;
otherwise a '/' is inserted unless the accumulator is empty or already ends
with '/'. -/
def pyPathJoin (parts : List String) : String :=
  parts.foldl
    (fun acc p =>
      if p.data.head? = some '/' then p
      else if acc = "" ∨ acc.data.getLast? = some '/' then acc ++ p
      else acc ++ "/" ++ p)
    ""

/-- posixpath.dirname: everything before the last '/', with trailing slashes
stripped unless the result is all slashes. -/
def pyDirname (s : String) : String :=
  let l := s.data
  let keep := l.length - (l.reverse.takeWhile fun c => c ≠ '/').length
  let head := l.take keep
  if head.all fun c => c = '/' then ⟨head⟩
  else ⟨(head.reverse.dropWhile fun c => c = '/').reverse⟩

/-!  _glue_xml_lines.  The input is the list of (byte) lines read from the
export file; `xml[0]` raises IndexError on an empty list, so the model returns
`Option`.  -/

/-- re.match(b'^[ \t]+', line): the line starts with a space or tab. -/
def isIndented : List Char → Bool
  | c :: _ => c = ' ' || c = '\t'
  | [] => false

/-- line.endswith(b'\n'). -/
def endsNl (l : List Char) : Bool := l.getLast? = some '\n'

/-- The loop of _glue_xml_lines: accumulator plus the two flags
previous_line_ended_in_newline and previous_line_was_indentet. -/
def glueGo (acc : List Char) (prevNl prevInd : Bool) :
    List (List Char) → List Char
  | [] => acc
  | line :: rest =>
    if isIndented line && prevNl then glueGo (acc ++ line) (endsNl line) true rest
    else if prevInd then glueGo (acc ++ line) (endsNl line) false rest
    else glueGo (acc ++ '\n' :: line) (endsNl line) false rest

def glueXmlLines : List (List Char) → Option (List Char)
  | [] => none
  | first :: rest => some (glueGo first (endsNl first) false rest)

/-- Second definition, following the words of the claim: a line beginning with
whitespace that follows a line ending in a newline is concatenated directly;
every other pair of consecutive lines is joined with a newline separator. -/
def glueClaimedGo (prev : List Char) : List (List Char) → List Char
  | [] => []
  | cur :: rest =>
    (if isIndented cur && endsNl prev then [] else ['\n']) ++ cur ++
      glueClaimedGo cur rest

def glueClaimed : List (List Char) → Option (List Char)
  | [] => none
  | first :: rest => some (first ++ glueClaimedGo first rest)

/-- A line was glued by the indent rule iff it is indented and its predecessor
ended in a newline. -/
def indentGlued (pprevNl : Bool) (prev : List Char) : Bool :=
  isIndented prev && pprevNl

/-- Second definition, following the words of the amended claim: additionally,
a line immediately following a line glued by the indent rule is also
concatenated directly.  `pprevNl` records whether the line before `prev`
ended in a newline (false for the first line). -/
def glueAmendedGo (pprevNl : Bool) (prev : List Char) : List (List Char) → List Char
  | [] => []
  | cur :: rest =>
    (if isIndented cur && endsNl prev || indentGlued pprevNl prev then []
     else ['\n']) ++ cur ++ glueAmendedGo (endsNl prev) cur rest

def glueAmended : List (List Char) → Option (List Char)
  | [] => none
  | first :: rest => some (first ++ glueAmendedGo false first rest)

/-!  The per-item import machine.  Mutable state of a run is the per-run
url_map, the module-global links dict, and the discovered timezone.  The
filesystem and network side effects are modelled as an emitted event list.
Python dicts are insertion-ordered association lists; updating an existing
key keeps its position, a new key is appended. -/

def dictSet {α : Type} [DecidableEq α] (d : List (α × String)) (k : α)
    (v : String) : List (α × String) :=
  if d.any fun p => p.1 = k then
    d.map fun p => if p.1 = k then (p.1, v) else p
  else d ++ [(k, v)]

def dictGet {α : Type} [DecidableEq α] (d : List (α × String)) (k : α) :
    Option String :=
  (d.find? fun p => p.1 = k).map fun p => p.2

/-- Options of the importer that the modelled code reads. -/
structure ImportConfig where
  outputFolder : String
  siteUrl : String
  defaultLang : String
  squashNewlines : Bool
  excludeDrafts : Bool
  separateQtranslate : Bool
  noDownloads : Bool
  phpserializeAvail : Bool

/-- Modelled from the spec: the date utilities (to_datetime / get_tzname of
nikola.utils, not under src/): whether a parsed publish date carries timezone
information, and the timezone name extracted from it. -/
structure DateOracle where
  hasTz : String → Bool
  tzName : String → String

/-- Modelled from the spec: the phpserialize decoding of the serialized
_wp_attachment_metadata value — returns the size-variant file names when the
value decodes and contains the sizes key, and none when the sizes key is
absent. -/
structure PhpOracle where
  sizes : String → Option (List String)

/-- Filesystem / network side effects, in emission order.  write_metadata and
write_content are modelled from the spec (ImportMixin of
nikola.plugins.basic_import, not under src/): a metadata record (title, slug,
publish date, description, tags) and a content file. -/
inductive FsEvent where
  | makedirs (dir : String)
  | download (url : String) (dst : String)
  | writeMeta (path : String) (title : Option String) (slug : String)
      (postDate : Option String) (description : Option String)
      (tags : List (Option String))
  | writeContent (path : String) (content : String)
deriving DecidableEq

/-- Mutable state shared across items: self.url_map, the module-global links
dict of basic_import (keys can be Python None when a present element has no
text), and self.timezone. -/
structure ImportState where
  urlMap : List (String × String)
  links : List (Option String × String)
  timezone : Option String
deriving DecidableEq

/-- download_url_content_to_file: a no-op under --no-downloads, otherwise one
fetch of url into dst (connection errors are caught and logged, so the event
is emitted either way). -/
def downloadUrlContentToFile (cfg : ImportConfig) (url dst : String) :
    List FsEvent :=
  if cfg.noDownloads then [] else [.download url dst]

/-- One size-variant file inside download_additional_image_sizes: build the
sibling URL, derive the destination, create directories, fetch, and record
the URL in links (the source records it twice; the second write overwrites
the first with the same value). -/
def sizeVariantStep (cfg : ImportConfig) (sourcePath : String)
    (acc : List (Option String × String) × List FsEvent) (filename : String) :
    List (Option String × String) × List FsEvent :=
  let url := pyJoin "/" [sourcePath, filename]
  let dstPath := pyPathJoin (cfg.outputFolder :: "files" :: pySplitStr (urlparsePath url) "/")
  let dstUrl := pyJoin "/" ((pySplitStr dstPath "/").drop 2)
  let lks := dictSet acc.1 (some url) ("/" ++ dstUrl)
  (dictSet lks (some url) ("/" ++ dstUrl),
   acc.2 ++ FsEvent.makedirs (pyDirname dstPath) ::
     downloadUrlContentToFile cfg url dstPath)

/-- The loop over the wp:postmeta elements of download_additional_image_sizes.
A meta_value element with no text raises (None.encode) in the source. -/
def sizesGo (cfg : ImportConfig) (php : PhpOracle) (ns : String)
    (sourcePath : String) :
    List XTree → List (Option String × String) → List FsEvent →
      Except String (List (Option String × String) × List FsEvent)
  | [], lks, evs => .ok (lks, evs)
  | element :: rest, lks, evs =>
    match element.find (nsTag ns "meta_key") with
    | some keyEl =>
      if keyEl.text = some "_wp_attachment_metadata" then
        match element.find (nsTag ns "meta_value") with
        | none => sizesGo cfg php ns sourcePath rest lks evs
        | some valEl =>
          match valEl.text with
          | none => .error "AttributeError: NoneType has no attribute encode"
          | some serialized =>
            match php.sizes serialized with
            | none => sizesGo cfg php ns sourcePath rest lks evs
            | some files =>
              let r := files.foldl (sizeVariantStep cfg sourcePath) (lks, evs)
              sizesGo cfg php ns sourcePath rest r.1 r.2
      else sizesGo cfg php ns sourcePath rest lks evs
    | none => sizesGo cfg php ns sourcePath rest lks evs

/-- download_additional_image_sizes: nothing without the phpserialize module;
otherwise scan the item's postmeta elements. -/
def downloadAdditionalImageSizes (cfg : ImportConfig) (php : PhpOracle)
    (ns : String) (item : XTree) (sourcePath : String)
    (links0 : List (Option String × String)) :
    Except String (List (Option String × String) × List FsEvent) :=
  if cfg.phpserializeAvail then
    sizesGo cfg php ns sourcePath (item.findall (nsTag ns "postmeta")) links0 []
  else .ok (links0, [])

/-- import_attachment.  A missing attachment_url element yields the default
"foo"; a present element with no text yields None, on which urlparse raises. -/
def importAttachment (cfg : ImportConfig) (php : PhpOracle) (ns : String)
    (item : XTree) (st : ImportState) :
    Except String (ImportState × List FsEvent) :=
  let urlO := getTextTag (some item) (nsTag ns "attachment_url") (some "foo")
  let linkO := getTextTag (some item) (nsTag ns "link") (some "foo")
  match urlO with
  | none => .error "TypeError: urlparse(None)"
  | some url =>
    let dstPath := pyPathJoin (cfg.outputFolder :: "files" :: pySplitStr (urlparsePath url) "/")
    let evs1 := FsEvent.makedirs (pyDirname dstPath) ::
      downloadUrlContentToFile cfg url dstPath
    let dstUrl := pyJoin "/" ((pySplitStr dstPath "/").drop 2)
    let links1 := dictSet st.links linkO ("/" ++ dstUrl)
    let links2 := dictSet links1 (some url) ("/" ++ dstUrl)
    match downloadAdditionalImageSizes cfg php ns item (pyDirname url) links2 with
    | .error e => .error e
    | .ok (links3, evs2) => .ok ({ st with links := links3 }, evs1 ++ evs2)

/-- Modelled from the spec: utils.slugify (nikola.utils, not under src/)
derives a filesystem-safe slug: lowercased alphanumerics with spaces turned
into hyphens and other characters dropped. -/
def slugifyModel (s : String) : String :=
  ⟨s.data.filterMap fun c =>
    if c.isAlphanum then some c.toLower
    else if c = ' ' then some '-'
    else none⟩

/-- "" on None or the empty string (Python truthiness of an optional str). -/
def pyTruthy : Option String → Bool
  | none => false
  | some s => !s.isEmpty

/-- unquote(urlparse(link).path.strip('/')).split('/'). -/
def itemPathList (link : String) : List String :=
  pySplitStr (pyUnquote (pyStripChars (urlparsePath link) ['/'])) "/"

/-- The slug resolution chain of import_item: slugify of the last path
segment, else the wp:post_name text, else the wp:post_id text; none when all
three are falsy (the source logs an error and skips the item). -/
def itemSlug (ns : String) (item : XTree) (pathlist : List String) :
    Option String :=
  let s0 := slugifyModel (pathlist.getLastD "")
  let a1 := if s0 ≠ "" then some s0
            else getTextTag (some item) (nsTag ns "post_name") none
  let a2 := if pyTruthy a1 then a1
            else getTextTag (some item) (nsTag ns "post_id") none
  if pyTruthy a2 then a2 else none

/-- Modelled from the spec: utils.get_translation_candidate with the default
translations pattern "\x7bpath\x7d.\x7blang\x7d.\x7bext\x7d". -/
def translationCandidate (slug lang : String) : String :=
  slug ++ "." ++ lang ++ ".wp"

/-- The per-language file writes of import_item. -/
def writeVariant (cfg : ImportConfig) (outFolder1 slug : String)
    (title : Option String) (postDate : String) (description : Option String)
    (tags : List (Option String)) (acc : List FsEvent) (lc : String × String) :
    List FsEvent :=
  let outContentFilename :=
    if lc.1 ≠ "" then
      if lc.1 = cfg.defaultLang then slug ++ ".wp"
      else translationCandidate slug lc.1
    else slug ++ ".wp"
  acc ++
    [FsEvent.writeMeta (pyPathJoin [cfg.outputFolder, outFolder1, slug ++ ".meta"])
       title slug (some postDate) description tags,
     FsEvent.writeContent (pyPathJoin [cfg.outputFolder, outFolder1, outContentFilename])
       (transformContent cfg.squashNewlines lc.2)]

/-- import_item.  A missing link, post_date, or (after the trash check) a
text-less content:encoded element raises in the source (urlparse(None),
to_datetime(None), "'$latex' in None"); a failed slug resolution is logged
and skips the item without error. -/
def importItem (cfg : ImportConfig) (oracle : DateOracle) (ns : String)
    (item : XTree) (outFolder : String) (st : ImportState) :
    Except String (ImportState × List FsEvent) :=
  let title := getTextTag (some item) "title" (some "NO TITLE")
  match getTextTag (some item) "link" none with
  | none => .error "TypeError: urlparse(None)"
  | some link =>
    let pathlist := itemPathList link
    let outFolder1 :=
      if 1 < pathlist.length then pyPathJoin (outFolder :: pathlist.dropLast)
      else outFolder
    match itemSlug ns item pathlist with
    | none => .ok (st, [])
    | some slug =>
      let description := getTextTag (some item) "description" (some "")
      match getTextTag (some item) (nsTag ns "post_date") none with
      | none => .error "TypeError: to_datetime(None)"
      | some postDate =>
        let st1 :=
          if oracle.hasTz postDate ∧ st.timezone = none then
            { st with timezone := some (oracle.tzName postDate) }
          else st
        let status := getTextTag (some item) (nsTag ns "status") (some "publish")
        let contentO := getTextTag (some item) contentEncodedTag (some "")
        if status = some "trash" then .ok (st1, [])
        else
          let isDraft := status ≠ some "publish"
          match contentO with
          | none => .error "TypeError: argument of type NoneType is not iterable"
          | some content =>
            let tags : List (Option String) :=
              (if isDraft then [some "draft"] else []) ++
                (((item.findall "category").map XTree.text).filter
                  fun t => t ≠ some "Uncategorized") ++
                (if hasSubstr "$latex".data content.data then [some "mathjax"]
                 else [])
            if isDraft ∧ cfg.excludeDrafts then .ok (st1, [])
            else if pyStrip content ≠ "" then
              let st2 := { st1 with
                urlMap := dictSet st1.urlMap link
                  (cfg.siteUrl ++ outFolder1 ++ "/" ++ slug ++ ".html") }
              let translations :=
                if cfg.separateQtranslate then separateQtranslateContent content
                else [("", content)]
              .ok (st2, translations.foldl
                (writeVariant cfg outFolder1 slug title postDate description tags) [])
            else .ok (st1, [])

/-- process_item: dispatch on the wp:post_type text (default "post"). -/
def processItem (cfg : ImportConfig) (oracle : DateOracle) (php : PhpOracle)
    (ns : String) (item : XTree) (st : ImportState) :
    Except String (ImportState × List FsEvent) :=
  let postType := getTextTag (some item) (nsTag ns "post_type") (some "post")
  if postType = some "attachment" then importAttachment cfg php ns item st
  else if postType = some "post" then importItem cfg oracle ns item "posts" st
  else importItem cfg oracle ns item "stories" st

/-- import_posts: the sequential loop over the channel's items; an uncaught
exception in one item aborts the run. -/
def runItems (cfg : ImportConfig) (oracle : DateOracle) (php : PhpOracle)
    (ns : String) : List XTree → ImportState →
      Except String (ImportState × List FsEvent)
  | [], st => .ok (st, [])
  | item :: rest, st =>
    match processItem cfg oracle php ns item st with
    | .error e => .error e
    | .ok (st1, evs1) =>
      match runItems cfg oracle php ns rest st1 with
      | .error e => .error e
      | .ok (st2, evs2) => .ok (st2, evs1 ++ evs2)

/-- The timezone value import_item extracts from one post/page item,
mirroring the path that reaches the timezone code: a present link, a
resolvable slug, and a post date carrying timezone information. -/
def tzSetterItem (oracle : DateOracle) (ns : String) (item : XTree) :
    Option String :=
  match getTextTag (some item) "link" none with
  | none => none
  | some link =>
    match itemSlug ns item (itemPathList link) with
    | none => none
    | some _ =>
      match getTextTag (some item) (nsTag ns "post_date") none with
      | none => none
      | some postDate =>
        if oracle.hasTz postDate then some (oracle.tzName postDate) else none

/-- The timezone value one processed item contributes: attachment items never
touch the timezone. -/
def tzSetter (oracle : DateOracle) (ns : String) (item : XTree) :
    Option String :=
  if getTextTag (some item) (nsTag ns "post_type") (some "post")
      = some "attachment" then none
  else tzSetterItem oracle ns item

/-!  Concrete fixtures used by counterexamples and witnesses.  -/

def exCfg : ImportConfig := ⟨"out", "http://s/", "en", false, false, false, false, false⟩

def exPhp : PhpOracle := ⟨fun _ => none⟩

/-- A concrete date oracle: every date carries timezone information and names
its own text as the timezone. -/
def exOracle : DateOracle := ⟨fun _ => true, fun s => s⟩

def exState : ImportState := ⟨[], [], none⟩

/-- Attachment item of the Attachment Resolver example. -/
def c1Item : XTree :=
  .mk "item" none
    [.mk (nsTag "wp" "attachment_url") (some "http://site/wp-content/2012/09/a.jpg") [],
     .mk (nsTag "wp" "link") (some "http://site/a-jpg/") []]

/-- An attachment item whose status field is trash. -/
def c6AttItem : XTree :=
  .mk "item" none
    [.mk (nsTag "wp" "post_type") (some "attachment") [],
     .mk (nsTag "wp" "status") (some "trash") [],
     .mk (nsTag "wp" "attachment_url") (some "http://site/f/a.jpg") [],
     .mk (nsTag "wp" "link") (some "http://site/a/") []]

/-- A post item with status trash (and a resolvable slug, date, content). -/
def c6PostItem : XTree :=
  .mk "item" none
    [.mk "link" (some "http://site/2012/t-post/") [],
     .mk (nsTag "wp" "post_date") (some "D") [],
     .mk (nsTag "wp" "status") (some "trash") [],
     .mk contentEncodedTag (some "body") []]

/-- A post item whose permalink path is empty and that has no post_name or
post_id: slug resolution fails and the item is skipped before its
timezone-carrying date is examined. -/
def c9ItemA : XTree :=
  .mk "item" none
    [.mk "link" (some "http://site/") [],
     .mk (nsTag "wp" "post_date") (some "AAA") [],
     .mk contentEncodedTag (some "xx") []]

/-- An ordinary post item with a timezone-carrying date. -/
def c9ItemB : XTree :=
  .mk "item" none
    [.mk "link" (some "http://site/2012/hello/") [],
     .mk (nsTag "wp" "post_date") (some "BBB") [],
     .mk contentEncodedTag (some "hi") []]

/-- The state after running [c9ItemB] from the empty state. -/
def c9RunState : ImportState :=
  ⟨[("http://site/2012/hello/", "http://s/posts/2012/hello.html")], [],
   some "BBB"⟩

/-- An ordinary post item (used for the links-untouched half of the url_map /
links separation). -/
def c10PostItem : XTree :=
  .mk "item" none
    [.mk "link" (some "http://site/p/") [],
     .mk (nsTag "wp" "post_date") (some "D") [],
     .mk contentEncodedTag (some "c") []]

deriving instance DecidableEq for Except

/-!  ## Theorems  -/

/-- C1, counterexample: for the attachment URL
http://site/wp-content/2012/09/a.jpg with output root "out", the LinkMap
records "/wp-content/2012/09/a.jpg" — the code drops the first two path
components of the destination ("out" and "files"), so the value is not the
claimed "/files/wp-content/2012/09/a.jpg". -/
theorem c1_counterexample :
    (importAttachment exCfg exPhp "wp" c1Item exState).toOption.map
        (fun p => dictGet p.1.links (some "http://site/wp-content/2012/09/a.jpg")) =
      some (some "/wp-content/2012/09/a.jpg") ∧
    (some "/wp-content/2012/09/a.jpg" : Option String) ≠
      some "/files/wp-content/2012/09/a.jpg" := by
  decide

/-- C1, amended: for attachment URL http://site/wp-content/2012/09/a.jpg and
output root "out", the destination path is out/files/wp-content/2012/09/a.jpg
(directories created for out/files/wp-content/2012/09, and the fetch targets
that path), and both the attachment URL and its sibling link URL are recorded
in the LinkMap mapping to the same rewritten destination
/wp-content/2012/09/a.jpg — the output root and the "files" segment are both
stripped from the destination when forming the rewritten URL. -/
theorem c1_attachment_resolver_amended :
    importAttachment exCfg exPhp "wp" c1Item exState =
      .ok
        (⟨[],
          [(some "http://site/a-jpg/", "/wp-content/2012/09/a.jpg"),
           (some "http://site/wp-content/2012/09/a.jpg", "/wp-content/2012/09/a.jpg")],
          none⟩,
         [.makedirs "out/files/wp-content/2012/09",
          .download "http://site/wp-content/2012/09/a.jpg"
            "out/files/wp-content/2012/09/a.jpg"]) := by
  decide

/-- C5: the Multilingual Splitter on
"<!--:en-->Hello<!--:--><!--:fr-->Bonjour<!--:-->" returns exactly
{"en": "Hello", "fr": "Bonjour"}, with no cross-contamination. -/
theorem c5_splitter_bilingual :
    separateQtranslateContent "<!--:en-->Hello<!--:--><!--:fr-->Bonjour<!--:-->" =
      [("en", "Hello"), ("fr", "Bonjour")] := by
  decide

/-- C2, counterexample: the caption-strip pass does not leave the inner text
untouched on every input.  When the inner text contains a "]", the greedy
opening-marker regex eats through it: "[caption id]a]b[/caption]" yields "b", not
"a]b".  When the attributes contain a "[", the closing-marker removal can fire
inside the opening marker: "[caption x[/caption]i[/caption]" yields
"[caption xi", not "i". -/
theorem c2_counterexample :
    transformCaption "[caption id]a]b[/caption]" = "b" ∧
    ("b" : String) ≠ "a]b" ∧
    transformCaption "[caption x[/caption]i[/caption]" = "[caption xi" ∧
    ("[caption xi" : String) ≠ "i" := by
  decide

/-- C3, counterexample: _glue_xml_lines does not join every non-indented line
with a newline separator.  For lines "a\n", "  b\n", "c\n" the third line
follows an indented-and-glued line, so the code concatenates it directly
(previous_line_was_indentet), while the claim's join rule would insert a
newline. -/
theorem c3_counterexample :
    glueXmlLines ["a\n".data, "  b\n".data, "c\n".data] =
      some "a\n  b\nc\n".data ∧
    glueClaimed ["a\n".data, "  b\n".data, "c\n".data] =
      some "a\n  b\n\nc\n".data ∧
    (some "a\n  b\nc\n".data : Option (List Char)) ≠ some "a\n  b\n\nc\n".data := by
  decide

/-- C4, counterexample: on marker-free content the Multilingual Splitter does
not always return the singleton mapping of the empty string to the content:
whitespace-only content yields the empty mapping, content whose third
character starts a "-->" is misread as a language section, and content
starting with "-->" is stripped of its leading '-' and '>' characters. -/
theorem c4_counterexample :
    separateQtranslateContent " " = [] ∧
    ([] : List (String × String)) ≠ [("", " ")] ∧
    separateQtranslateContent "ab-->cd" = [("ab", "cd")] ∧
    ([("ab", "cd")] : List (String × String)) ≠ [("", "ab-->cd")] ∧
    separateQtranslateContent "-->x" = [("", "x")] ∧
    ([("", "x")] : List (String × String)) ≠ [("", "-->x")] := by
  decide

/-- C6, counterexample: an item with status trash can add entries to the
LinkMap: the attachment branch of the Item Classifier never examines the
status field, so a trashed attachment is imported and its URLs are recorded
in the links mapping (and its file fetched). -/
theorem c6_counterexample :
    getTextTag (some c6AttItem) (nsTag "wp" "status") (some "publish") =
      some "trash" ∧
    (processItem exCfg exOracle exPhp "wp" c6AttItem exState).toOption.map
        (fun p => p.1.links) =
      some [(some "http://site/a/", "/f/a.jpg"),
            (some "http://site/f/a.jpg", "/f/a.jpg")] ∧
    ([(some "http://site/a/", "/f/a.jpg"),
      (some "http://site/f/a.jpg", "/f/a.jpg")] :
        List (Option String × String)) ≠ exState.links := by
  decide

/-- C7, counterexample: the Content Transformer chain is not a no-op on every
marker-free text: with newline squashing enabled a run of three newlines is
collapsed, and a closing [/sourcecode] shortcode is rewritten even when no
opening [sourcecode ...] marker is present. -/
theorem c7_counterexample :
    transformContent true "a\n\n\nb" = "a\n\nb" ∧
    ("a\n\nb" : String) ≠ "a\n\n\nb" ∧
    transformContent false "x[/sourcecode]y" = "x\n~~~~~~~~~~~~\ny" ∧
    ("x\n~~~~~~~~~~~~\ny" : String) ≠ "x[/sourcecode]y" := by
  decide

/-- The loop of _glue_xml_lines computes the amended pairwise join: the flags
carried by the loop are determined by the previous line and by whether the
line before it ended in a newline. -/
theorem glueGo_amended (rest : List (List Char)) :
    ∀ (acc : List Char) (pprevNl : Bool) (prev : List Char),
      glueGo acc (endsNl prev) (indentGlued pprevNl prev) rest =
        acc ++ glueAmendedGo pprevNl prev rest := by
  induction rest with
  | nil =>
    intro acc pprevNl prev
    simp [glueGo, glueAmendedGo]
  | cons cur rest ih =>
    intro acc pprevNl prev
    simp only [glueGo, glueAmendedGo]
    have key := ih (acc ++ cur) (endsNl prev) cur
    have key2 := ih (acc ++ '\n' :: cur) (endsNl prev) cur
    by_cases h1 : (isIndented cur && endsNl prev) = true
    · have e : indentGlued (endsNl prev) cur = true := h1
      rw [e] at key
      rw [if_pos h1, if_pos (show (isIndented cur && endsNl prev ||
        indentGlued pprevNl prev) = true by simp [h1]), key]
      simp
    · have e : indentGlued (endsNl prev) cur = false := by
        simpa [indentGlued] using h1
      rw [e] at key key2
      by_cases h3 : indentGlued pprevNl prev = true
      · rw [if_neg h1, if_pos h3, if_pos (show (isIndented cur && endsNl prev ||
          indentGlued pprevNl prev) = true by simp [h3]), key]
        simp
      · rw [if_neg h1, if_neg h3, if_neg (show ¬ (isIndented cur && endsNl prev ||
          indentGlued pprevNl prev) = true by simp [h1, h3]), key2]
        simp

/-- C3, amended: the Line Repair Preprocessor concatenates a line directly
onto the previous one when the line begins with whitespace and the previous
line ended in a newline, and also when the previous line itself was glued by
that indent rule; every other pair of consecutive lines is joined with a
newline separator. -/
theorem c3_glue_amended (xml : List (List Char)) :
    glueXmlLines xml = glueAmended xml := by
  cases xml with
  | nil => rfl
  | cons first rest =>
    have h := glueGo_amended rest first false first
    simp only [indentGlued, Bool.and_false] at h
    simp only [glueXmlLines, glueAmended, h]

/-- The fuelled split loop returns a single piece when the separator occurs
nowhere in the remaining input. -/
theorem pySplitGo_no_occ (sep : List Char) :
    ∀ (n : Nat) (l acc : List Char), (∀ Y, Y <:+ l → ¬ sep <+: Y) →
      l.length < n → pySplitGo sep n acc l = [acc.reverse ++ l] := by
  intro n
  induction n with
  | zero =>
    intro l acc _ hlen
    omega
  | succ n ih =>
    intro l acc hocc hlen
    have hnp : ¬ (sep.isPrefixOf l = true) := by
      rw [List.isPrefixOf_iff_prefix]
      exact hocc l List.suffix_rfl
    rw [pySplitGo.eq_def]
    simp only [if_neg hnp]
    cases l with
    | nil => simp
    | cons c cs =>
      show pySplitGo sep n (c :: acc) cs = [acc.reverse ++ c :: cs]
      rw [ih cs (c :: acc)
        (fun Y hY => hocc Y (hY.trans (List.suffix_cons c cs)))
        (by simpa using Nat.lt_of_succ_lt_succ hlen)]
      simp

/-- Python str.split(sep) returns the whole string when the separator does
not occur in it. -/
theorem pySplitL_no_occ (sep l : List Char) (hinf : ¬ sep <:+: l) :
    pySplitL sep l = [l] := by
  have hocc : ∀ Y, Y <:+ l → ¬ sep <+: Y :=
    fun Y hs hp => hinf (hp.isInfix.trans hs.isInfix)
  simpa [pySplitL] using pySplitGo_no_occ sep (l.length + 1) l [] hocc (by omega)

/-- C4, amended: for every content string that does not contain the
marker-open token "<!--:", is not whitespace-only, does not start with "-->",
and does not have "-->" starting at its third character, the Multilingual
Splitter returns exactly one entry, keyed by the empty string, whose value is
the content.  (Whitespace-only content yields the empty mapping; the other
two shapes are misread as a closing marker or a language section.) -/
theorem c4_splitter_no_markers_amended (text : String)
    (hm : ¬ "<!--:".data <:+: text.data)
    (hws : pyStrip text ≠ "")
    (h0 : ¬ "-->".data.isPrefixOf text.data = true)
    (h2 : ¬ "-->".data.isPrefixOf (text.drop 2).data = true) :
    separateQtranslateContent text = [("", text)] := by
  unfold separateQtranslateContent
  rw [pySplitL_no_occ _ _ hm]
  simp only [List.map, List.foldl]
  rw [show (String.mk text.data) = text from rfl]
  rw [qtStep, if_neg hws, if_neg h0, if_neg h2]
  simp [qtCommon, pyJoin]

/-- C4, witness: concrete marker-free content. -/
theorem c4_splitter_no_markers_witness :
    separateQtranslateContent "Hello world" = [("", "Hello world")] :=
  c4_splitter_no_markers_amended "Hello world" (by decide) (by decide)
    (by decide) (by decide)

/-- A fuelled scan with no match at any position copies its input. -/
theorem scanSub_eq_self (m : List Char → Option (Nat × List Char)) :
    ∀ (n : Nat) (l : List Char), (∀ Y, Y ≠ [] → Y <:+ l → m Y = none) →
      l.length ≤ n → scanSub m n l = l := by
  intro n
  induction n with
  | zero =>
    intro l _ _
    rfl
  | succ n ih =>
    intro l hm hl
    match l with
    | [] => rfl
    | c :: cs =>
      have h0 : m (c :: cs) = none := hm _ (by simp) List.suffix_rfl
      simp only [scanSub, h0]
      exact congrArg (c :: ·)
        (ih cs (fun Y hY hs => hm Y hY (hs.trans (List.suffix_cons c cs)))
          (Nat.le_of_succ_le_succ hl))

/-- The literal matcher cannot fire on a suffix of a string that does not
contain the pattern. -/
theorem mLiteral_none {pat l Y : List Char} (rep : List Char)
    (hinf : ¬ pat <:+: l) (hs : Y <:+ l) : mLiteral pat rep Y = none := by
  have : ¬ (pat.isPrefixOf Y = true) := by
    rw [List.isPrefixOf_iff_prefix]
    intro hp
    exact hinf (hp.isInfix.trans hs.isInfix)
  simp [mLiteral, this]

/-- The sourcecode-opening matcher cannot fire on a suffix of a string that
does not contain "[sourcecode". -/
theorem mSourceOpen_none {l Y : List Char}
    (hinf : ¬ "[sourcecode".data <:+: l) (hs : Y <:+ l) :
    mSourceOpen Y = none := by
  have : ¬ (scOpenPat.isPrefixOf Y = true) := by
    rw [List.isPrefixOf_iff_prefix]
    intro hp
    exact hinf
      (((show "[sourcecode".data <+: scOpenPat by decide).trans hp).isInfix.trans
        hs.isInfix)
  simp [mSourceOpen, this]

/-- The caption-opening matcher cannot fire on a suffix of a string that does
not contain "[caption". -/
theorem mCaptionOpen_none {l Y : List Char}
    (hinf : ¬ "[caption".data <:+: l) (hs : Y <:+ l) :
    mCaptionOpen Y = none := by
  have : ¬ (capOpenPat.isPrefixOf Y = true) := by
    rw [List.isPrefixOf_iff_prefix]
    intro hp
    exact hinf (hp.isInfix.trans hs.isInfix)
  simp [mCaptionOpen, this]

/-- The newline-run matcher cannot fire on a suffix of a string that does not
contain three consecutive newlines. -/
theorem mNewlines_none {l Y : List Char}
    (hinf : ¬ ['\n', '\n', '\n'] <:+: l) (hs : Y <:+ l) :
    mNewlines Y = none := by
  have hrun : ¬ 3 ≤ (Y.takeWhile fun c => c = '\n').length := by
    intro hge
    apply hinf
    have hmem : ∀ x ∈ (Y.takeWhile fun c => c = '\n'), x = '\n' := by
      intro x hx
      simpa using List.mem_takeWhile_imp hx
    have hpre : (Y.takeWhile fun c => c = '\n') <+: Y := List.takeWhile_prefix _
    generalize htw : (Y.takeWhile fun c => c = '\n') = tw at hge hmem hpre
    rcases tw with _ | ⟨a, _ | ⟨b, _ | ⟨c, t⟩⟩⟩
    · simp at hge
    · simp at hge
    · simp at hge
    · have ha : a = '\n' := hmem a (by simp)
      have hb : b = '\n' := hmem b (by simp)
      have hc : c = '\n' := hmem c (by simp)
      subst ha
      subst hb
      subst hc
      have h3 : ['\n', '\n', '\n'] <+: '\n' :: '\n' :: '\n' :: t := ⟨t, rfl⟩
      exact ((h3.trans hpre).isInfix).trans hs.isInfix
  simp [mNewlines, hrun]

/-- C7, amended: on text free of the recognized shortcode markers
"[sourcecode", "[/sourcecode]", "[caption" and "[/caption]", and when
newline squashing is disabled or the text has no run of three consecutive
newlines, the full Content Transformer chain returns the text unchanged
(hence is idempotent on such text). -/
theorem c7_transformer_noop_amended (squash : Bool) (s : String)
    (h1 : ¬ "[sourcecode".data <:+: s.data)
    (h2 : ¬ "[/sourcecode]".data <:+: s.data)
    (h3 : ¬ "[caption".data <:+: s.data)
    (h4 : ¬ "[/caption]".data <:+: s.data)
    (h5 : squash = false ∨ ¬ ['\n', '\n', '\n'] <:+: s.data) :
    transformContent squash s = s := by
  have e1 : transformSourcecodeL s.data = s.data := by
    unfold transformSourcecodeL
    rw [scanSub_eq_self _ _ _ (fun Y _ hs => mSourceOpen_none h1 hs) le_rfl,
      scanSub_eq_self _ _ _ (fun Y _ hs => mLiteral_none _ h2 hs) le_rfl]
  have e2 : transformCaptionL s.data = s.data := by
    unfold transformCaptionL
    rw [scanSub_eq_self _ _ _ (fun Y _ hs => mLiteral_none _ h4 hs) le_rfl,
      scanSub_eq_self _ _ _ (fun Y _ hs => mCaptionOpen_none h3 hs) le_rfl]
  have e3 : transformMultipleNewlinesL squash s.data = s.data := by
    unfold transformMultipleNewlinesL
    rcases h5 with h5 | h5
    · rw [h5]
      simp
    · split
      · exact scanSub_eq_self _ _ _ (fun Y _ hs => mNewlines_none h5 hs) le_rfl
      · rfl
  show String.mk (transformContentL squash s.data) = s
  unfold transformContentL
  rw [e1, e2, e3]

/-- C7, witness: a concrete marker-free text with squashing enabled. -/
theorem c7_transformer_noop_witness :
    transformContent true "hello, world.\n" = "hello, world.\n" :=
  c7_transformer_noop_amended true "hello, world.\n" (by decide) (by decide)
    (by decide) (by decide) (Or.inr (by decide))

/-- A suffix of A ++ B is a suffix of B, or a nonempty suffix of A followed
by all of B. -/
theorem suffix_append_cases {α : Type} {Y A B : List α} (h : Y <:+ A ++ B) :
    Y <:+ B ∨ ∃ A', A' ≠ [] ∧ A' <:+ A ∧ Y = A' ++ B := by
  obtain ⟨X, hX⟩ := h
  have h1 : Y = (A ++ B).drop X.length := by
    rw [← hX, List.drop_left]
  by_cases hle : A.length ≤ X.length
  · left
    rw [h1, List.drop_append_eq_append_drop, List.drop_eq_nil_of_le hle,
      List.nil_append]
    exact List.drop_suffix _ _
  · right
    push_neg at hle
    refine ⟨A.drop X.length, ?_, List.drop_suffix _ _, ?_⟩
    · apply List.ne_nil_of_length_pos
      rw [List.length_drop]
      omega
    · rw [h1, List.drop_append_eq_append_drop,
        show X.length - A.length = 0 by omega, List.drop_zero]

/-- A scan passes over a region in which no match starts. -/
theorem scanSub_append (m : List Char → Option (Nat × List Char)) :
    ∀ (A : List Char) (n : Nat) (B : List Char),
      (∀ Y, Y ≠ [] → Y <:+ A → m (Y ++ B) = none) → (A ++ B).length ≤ n →
      scanSub m n (A ++ B) = A ++ scanSub m (n - A.length) B := by
  intro A
  induction A with
  | nil =>
    intro n B _ _
    simp
  | cons a A ih =>
    intro n B hnm hlen
    cases n with
    | zero => simp at hlen
    | succ n =>
      have h0 : m (a :: A ++ B) = none :=
        hnm (a :: A) (by simp) List.suffix_rfl
      rw [List.cons_append] at h0
      show scanSub m (n + 1) (a :: (A ++ B)) = _
      simp only [scanSub, h0]
      rw [ih n B (fun Y hY hs => hnm Y hY (hs.trans (List.suffix_cons a A)))
        (by simpa using Nat.le_of_succ_le_succ hlen)]
      simp only [List.cons_append, List.length_cons]
      rw [show n + 1 - (A.length + 1) = n - A.length from by omega]

/-- In "[caption" ++ attrs ++ "]" ++ inner, no occurrence of the literal
"[/caption]" starts before the appended closing marker itself, provided the
attributes contain no "[" and the inner text no "]". -/
theorem captionClose_no_overlap {attrs inner : List Char}
    (ha2 : '[' ∉ attrs) (hi1 : ']' ∉ inner) :
    ∀ Y, Y ≠ [] → Y <:+ ("[caption".data ++ attrs ++ ']' :: inner) →
      ¬ "[/caption]".data <+: (Y ++ "[/caption]".data) := by
  intro Y hY hsfx hp
  have hcap : "[caption".data = '[' :: "caption".data := rfl
  have hpat : "[/caption]".data = '[' :: '/' :: "caption]".data := rfl
  have hgroup : "[caption".data ++ attrs ++ ']' :: inner =
      '[' :: ("caption".data ++ (attrs ++ ']' :: inner)) := by
    rw [List.append_assoc, hcap, List.cons_append]
  rw [hgroup] at hsfx
  rcases List.suffix_cons_iff.mp hsfx with hYC | hYs
  · -- Y is the whole string: second characters differ ('c' vs '/')
    obtain ⟨t, ht⟩ := hp
    rw [hYC, hpat] at ht
    simp only [List.cons_append] at ht
    injection ht with h1 ht
    injection ht with h2 ht
    exact absurd h2 (by decide)
  · -- Y lies inside "caption" ++ (attrs ++ ']' :: inner)
    rcases suffix_append_cases hYs with hY1 | ⟨S, hS0, hSsfx, rfl⟩
    · -- Y <:+ attrs ++ ']' :: inner
      rcases suffix_append_cases hY1 with hY2 | ⟨S, hS0, hSsfx, rfl⟩
      · -- Y <:+ ']' :: inner
        rcases List.suffix_cons_iff.mp hY2 with hYe | hYi
        · -- Y = ']' :: inner: head is ']', not '['
          obtain ⟨t, ht⟩ := hp
          rw [hYe, hpat] at ht
          simp only [List.cons_append] at ht
          injection ht with h1 ht
          exact absurd h1 (by decide)
        · -- Y <:+ inner
          by_cases hlen : 10 ≤ Y.length
          · -- the pattern fits inside Y, but Y has no ']'
            obtain ⟨t, ht⟩ := hp
            have htake : "[/caption]".data = (Y ++ "[/caption]".data).take 10 := by
              rw [← ht, List.take_left' (by decide)]
            rw [List.take_append_eq_append_take,
              Nat.sub_eq_zero_of_le hlen, List.take_zero, List.append_nil]
              at htake
            have hsub : "[/caption]".data <+: Y := htake ▸ List.take_prefix 10 Y
            have hmem : ']' ∈ Y := hsub.subset (by decide)
            exact hi1 (hYi.subset hmem)
          · -- 1 ≤ |Y| ≤ 9: the pattern would have to overlap itself
            push_neg at hlen
            have hYpos : 0 < Y.length := List.length_pos.mpr hY
            have hidx : Y.length < ("[/caption]".data).length := by
              rw [show ("[/caption]".data).length = 10 from by decide]
              omega
            have hidx2 : Y.length < (Y ++ "[/caption]".data).length := by
              simp [List.length_append]
            have h1 : ("[/caption]".data)[Y.length] =
                (Y ++ "[/caption]".data)[Y.length] := hp.getElem hidx
            rw [List.getElem_append_right (Nat.le_refl _)] at h1
            simp only [Nat.sub_self] at h1
            have hq : ("[/caption]".data)[Y.length]? = some '[' := by
              rw [List.getElem?_eq_getElem hidx, h1]
              rfl
            obtain ⟨d, hd⟩ : ∃ d, Y.length = d := ⟨_, rfl⟩
            rw [hd] at hq hYpos hlen
            interval_cases d <;> exact absurd hq (by decide)
      · -- Y = S ++ ']' :: inner with S a nonempty suffix of attrs
        obtain ⟨s, S2, rfl⟩ : ∃ s S2, S = s :: S2 := by
          cases S with
          | nil => exact absurd rfl hS0
          | cons s S2 => exact ⟨s, S2, rfl⟩
        have hs : s ∈ attrs := hSsfx.subset (by simp)
        obtain ⟨t, ht⟩ := hp
        rw [hpat] at ht
        simp only [List.cons_append, List.append_assoc] at ht
        injection ht with h1 ht
        exact ha2 (h1 ▸ hs)
    · -- Y = S ++ (attrs ++ ']' :: inner), S a nonempty suffix of "caption"
      obtain ⟨s, S2, rfl⟩ : ∃ s S2, S = s :: S2 := by
        cases S with
        | nil => exact absurd rfl hS0
        | cons s S2 => exact ⟨s, S2, rfl⟩
      have hs : s ∈ "caption".data := hSsfx.subset (by simp)
      obtain ⟨t, ht⟩ := hp
      rw [hpat] at ht
      simp only [List.cons_append, List.append_assoc] at ht
      injection ht with h1 ht
      rw [← h1] at hs
      exact absurd hs (by decide)

/-- The greedy \[caption.*\] matcher consumes exactly the opening marker
"[caption" ++ attrs ++ "]" when the attributes contain no newline and the
inner text contains no "]" (the marker's "]" is then the last "]" on the
line). -/
theorem captionOpen_step {attrs inner : List Char}
    (ha3 : '\n' ∉ attrs) (hi1 : ']' ∉ inner) :
    mCaptionOpen ("[caption".data ++ attrs ++ ']' :: inner) =
      some (9 + attrs.length, []) := by
  have hw1 : ∀ a ∈ attrs, (fun c => decide (c ≠ '\n')) a = true := by
    intro a ha
    simp only [decide_eq_true_eq]
    intro hcon
    exact ha3 (hcon ▸ ha)
  have hpre : capOpenPat.isPrefixOf
      ("[caption".data ++ attrs ++ ']' :: inner) = true := by
    rw [List.isPrefixOf_iff_prefix, List.append_assoc]
    exact List.prefix_append _ _
  unfold mCaptionOpen
  rw [if_pos hpre]
  have hdrop : ("[caption".data ++ attrs ++ ']' :: inner).drop
      capOpenPat.length = attrs ++ ']' :: inner := by
    rw [List.append_assoc]
    exact List.drop_left' (by decide)
  rw [hdrop]
  have hinner1 : ∀ a ∈ inner.takeWhile fun c => decide (c ≠ '\n'),
      (fun c => decide (c ≠ ']')) a = true := by
    intro a ha
    simp only [decide_eq_true_eq]
    intro hcon
    exact hi1 (hcon ▸ (List.takeWhile_prefix _).subset ha)
  have hline : (attrs ++ ']' :: inner).takeWhile (fun c => decide (c ≠ '\n')) =
      attrs ++ ']' :: (inner.takeWhile fun c => decide (c ≠ '\n')) := by
    rw [List.takeWhile_append_of_pos hw1, List.takeWhile_cons_of_pos (by decide)]
  rw [hline]
  have hcontains : (attrs ++ ']' ::
      (inner.takeWhile fun c => decide (c ≠ '\n'))).contains ']' = true := by
    simp
  rw [if_pos hcontains]
  have hrev : (attrs ++ ']' ::
      (inner.takeWhile fun c => decide (c ≠ '\n'))).reverse =
      (inner.takeWhile fun c => decide (c ≠ '\n')).reverse ++
        ']' :: attrs.reverse := by
    rw [List.reverse_append, List.reverse_cons, List.append_assoc,
      List.singleton_append]
  rw [hrev]
  have htw : ((inner.takeWhile fun c => decide (c ≠ '\n')).reverse ++
      ']' :: attrs.reverse).takeWhile (fun c => decide (c ≠ ']')) =
      (inner.takeWhile fun c => decide (c ≠ '\n')).reverse := by
    rw [List.takeWhile_append_of_pos, List.takeWhile_cons_of_neg (by decide),
      List.append_nil]
    intro a ha
    simp only [decide_eq_true_eq]
    intro hcon
    exact hi1 (hcon ▸ (List.takeWhile_prefix _).subset (List.mem_reverse.mp ha))
  rw [htw]
  simp only [List.length_append, List.length_cons, List.length_reverse]
  congr 2
  · simp [capOpenPat]
    omega

/-- The \[caption.*\] matcher never fires inside text with no "]". -/
theorem mCaptionOpen_none_inner {inner Y : List Char}
    (hi1 : ']' ∉ inner) (hs : Y <:+ inner) : mCaptionOpen Y = none := by
  unfold mCaptionOpen
  split
  · rw [if_neg]
    intro hc
    have hmem : ']' ∈ (Y.drop capOpenPat.length).takeWhile
        fun c => decide (c ≠ '\n') := by
      simpa using hc
    exact hi1 (hs.subset ((List.drop_suffix _ _).subset
      ((List.takeWhile_prefix _).subset hmem)))
  · rfl

/-- The \[caption.*\] substitution on the opening marker followed by the
inner text removes exactly the marker. -/
theorem captionSub_whole {attrs inner : List Char}
    (ha3 : '\n' ∉ attrs) (hi1 : ']' ∉ inner) :
    scanSub mCaptionOpen ("[caption".data ++ attrs ++ ']' :: inner).length
      ("[caption".data ++ attrs ++ ']' :: inner) = inner := by
  have hC : "[caption".data ++ attrs ++ ']' :: inner =
      '[' :: ("caption".data ++ (attrs ++ ']' :: inner)) := by
    rw [List.append_assoc, show "[caption".data = '[' :: "caption".data from rfl,
      List.cons_append]
  have hm := @captionOpen_step attrs inner ha3 hi1
  rw [hC] at hm ⊢
  rw [List.length_cons]
  simp only [scanSub, hm]
  have hdrop : ('[' :: ("caption".data ++ (attrs ++ ']' :: inner))).drop
      (9 + attrs.length) = inner := by
    rw [← hC, show "[caption".data ++ attrs ++ ']' :: inner =
      ("[caption".data ++ attrs ++ [']']) ++ inner by simp]
    exact List.drop_left' (by simp; omega)
  rw [hdrop, List.nil_append]
  apply scanSub_eq_self
  · intro Z hZ hZs
    exact mCaptionOpen_none_inner hi1 hZs
  · simp
    omega

/-- C2, amended: on text of the form [caption ++ attrs ++ ] ++ inner ++
[/caption], where the attributes contain no square bracket and no newline and
the inner text contains no "]", the caption-strip pass removes the opening
marker (with its attributes) and the closing marker and returns exactly the
inner text.  (With a "]" in the inner text the greedy opening-marker regex
eats into it; with a "[" in the attributes the closing-marker removal can
fire inside the opening marker.) -/
theorem c2_caption_strip_amended (attrs inner : List Char)
    (ha2 : '[' ∉ attrs) (ha3 : '\n' ∉ attrs) (hi1 : ']' ∉ inner) :
    transformCaptionL
        ("[caption".data ++ attrs ++ ']' :: (inner ++ "[/caption]".data)) =
      inner := by
  have hS : "[caption".data ++ attrs ++ ']' :: (inner ++ "[/caption]".data) =
      ("[caption".data ++ attrs ++ ']' :: inner) ++ "[/caption]".data := by
    simp
  have hA : scanSub (mLiteral "[/caption]".data [])
      ((("[caption".data ++ attrs ++ ']' :: inner) ++ "[/caption]".data).length)
      (("[caption".data ++ attrs ++ ']' :: inner) ++ "[/caption]".data) =
      "[caption".data ++ attrs ++ ']' :: inner := by
    rw [scanSub_append (mLiteral "[/caption]".data [])
      ("[caption".data ++ attrs ++ ']' :: inner) _ "[/caption]".data
      (fun Y hY hs => by
        have := captionClose_no_overlap ha2 hi1 Y hY hs
        simp only [mLiteral, List.isPrefixOf_iff_prefix]
        rw [if_neg this])
      le_rfl]
    rw [show (("[caption".data ++ attrs ++ ']' :: inner) ++
        "[/caption]".data).length -
        ("[caption".data ++ attrs ++ ']' :: inner).length = 10 by
      simp
      omega]
    rw [show scanSub (mLiteral "[/caption]".data []) 10 "[/caption]".data =
      [] from by decide]
    simp
  unfold transformCaptionL
  rw [hS, hA]
  exact captionSub_whole ha3 hi1

/-- C2, witness: a concrete caption shortcode. -/
theorem c2_caption_strip_witness :
    transformCaptionL ("[caption".data ++ " id=1".data ++
      ']' :: ("some text".data ++ "[/caption]".data)) = "some text".data :=
  c2_caption_strip_amended " id=1".data "some text".data (by decide) (by decide)
    (by decide)

/-- C8: the Field Extractor contract: for any node (possibly absent), field
name and default, get_text_tag returns the default for an absent node, the
found child's text content when the field is present, and the default when
the field is missing; being a total function, it never raises. -/
theorem c8_field_extractor (name : String) (default : Option String) :
    getTextTag none name default = default ∧
    (∀ node : XTree, ∀ t, node.find name = some t →
      getTextTag (some node) name default = t.text) ∧
    (∀ node : XTree, node.find name = none →
      getTextTag (some node) name default = default) := by
  refine ⟨rfl, ?_, ?_⟩ <;> intro node
  · intro t ht
    simp [getTextTag, ht]
  · intro ht
    simp [getTextTag, ht]

/-- C8, witness at a concrete node, field and default. -/
theorem c8_field_extractor_witness :
    getTextTag none "title" (some "d") = some "d" ∧
    getTextTag (some (XTree.mk "item" none [XTree.mk "title" (some "T") []]))
        "title" (some "d") = some "T" ∧
    getTextTag (some (XTree.mk "item" none [])) "title" (some "d") = some "d" := by
  have h := c8_field_extractor "title" (some "d")
  exact ⟨h.1, h.2.1 _ (XTree.mk "title" (some "T") []) rfl, h.2.2 _ rfl⟩

/-- import_attachment touches only the links component of the state. -/
theorem importAttachment_state (cfg : ImportConfig) (php : PhpOracle)
    (ns : String) (item : XTree) (st st' : ImportState) (evs : List FsEvent)
    (h : importAttachment cfg php ns item st = .ok (st', evs)) :
    st'.urlMap = st.urlMap ∧ st'.timezone = st.timezone := by
  simp only [importAttachment] at h
  repeat' split at h
  all_goals first | injection h with aeq | injection h
  all_goals injection aeq with h2 h3
  all_goals subst h2
  all_goals exact ⟨rfl, rfl⟩

set_option maxHeartbeats 1000000 in
/-- import_item never touches the links component of the state. -/
theorem importItem_links (cfg : ImportConfig) (oracle : DateOracle)
    (ns : String) (item : XTree) (out : String) (st st' : ImportState)
    (evs : List FsEvent)
    (h : importItem cfg oracle ns item out st = .ok (st', evs)) :
    st'.links = st.links := by
  simp only [importItem] at h
  repeat' split at h
  all_goals first | injection h with aeq | injection h
  all_goals injection aeq with h2 h3
  all_goals subst h2
  all_goals rfl

set_option maxHeartbeats 1000000 in
/-- import_item with a trash status performs no LinkMap update and no write
(it can still record the timezone before the status check). -/
theorem importItem_trash (cfg : ImportConfig) (oracle : DateOracle)
    (ns : String) (item : XTree) (out : String) (st st' : ImportState)
    (evs : List FsEvent)
    (htrash : getTextTag (some item) (nsTag ns "status") (some "publish") =
      some "trash")
    (h : importItem cfg oracle ns item out st = .ok (st', evs)) :
    st'.urlMap = st.urlMap ∧ st'.links = st.links ∧ evs = [] := by
  simp only [importItem, htrash] at h
  repeat' split at h
  all_goals first
    | exact absurd trivial (by assumption)
    | (injection h with aeq
       injection aeq with h2 h3
       subst h2
       subst h3
       exact ⟨rfl, rfl, rfl⟩)
    | injection h

/-- C10: the per-run url_map only gains entries from post/page items, and the
module-global links mapping only gains entries from attachment items: an
attachment item leaves the url_map unchanged and a non-attachment item leaves
the links mapping unchanged, so no attachment entry reaches the emitted
url_map.csv or the redirect table (both derived from url_map alone). -/
theorem c10_urlmap_links_separation (cfg : ImportConfig) (oracle : DateOracle)
    (php : PhpOracle) (ns : String) (item : XTree) (st : ImportState) :
    (getTextTag (some item) (nsTag ns "post_type") (some "post") =
        some "attachment" →
      ∀ st' evs, processItem cfg oracle php ns item st = .ok (st', evs) →
        st'.urlMap = st.urlMap) ∧
    (getTextTag (some item) (nsTag ns "post_type") (some "post") ≠
        some "attachment" →
      ∀ st' evs, processItem cfg oracle php ns item st = .ok (st', evs) →
        st'.links = st.links) := by
  constructor
  · intro hat st' evs h
    unfold processItem at h
    rw [if_pos hat] at h
    exact (importAttachment_state cfg php ns item st st' evs h).1
  · intro hat st' evs h
    unfold processItem at h
    rw [if_neg hat] at h
    split at h
    · exact importItem_links cfg oracle ns item "posts" st st' evs h
    · exact importItem_links cfg oracle ns item "stories" st st' evs h

/-- C10, witness: a concrete attachment item and a concrete post item. -/
theorem c10_urlmap_links_separation_witness :
    (∀ st' evs,
      processItem exCfg exOracle exPhp "wp" c6AttItem exState = .ok (st', evs) →
        st'.urlMap = exState.urlMap) ∧
    (∀ st' evs,
      processItem exCfg exOracle exPhp "wp" c10PostItem exState = .ok (st', evs) →
        st'.links = exState.links) :=
  ⟨fun st' evs h =>
    (c10_urlmap_links_separation exCfg exOracle exPhp "wp" c6AttItem exState).1
      (by decide) st' evs h,
   fun st' evs h =>
    (c10_urlmap_links_separation exCfg exOracle exPhp "wp" c10PostItem exState).2
      (by decide) st' evs h⟩

/-- C6, amended: for every non-attachment item whose status field is trash,
processing the item adds no entry to the url_map or the links mapping and
performs no file write, regardless of the item's content (attachment items
never consult the status field and are imported regardless of it). -/
theorem c6_trash_skipped_amended (cfg : ImportConfig) (oracle : DateOracle)
    (php : PhpOracle) (ns : String) (item : XTree) (st : ImportState)
    (hat : getTextTag (some item) (nsTag ns "post_type") (some "post") ≠
      some "attachment")
    (htrash : getTextTag (some item) (nsTag ns "status") (some "publish") =
      some "trash") :
    ∀ st' evs, processItem cfg oracle php ns item st = .ok (st', evs) →
      st'.urlMap = st.urlMap ∧ st'.links = st.links ∧ evs = [] := by
  intro st' evs h
  unfold processItem at h
  rw [if_neg hat] at h
  split at h
  · exact importItem_trash cfg oracle ns item "posts" st st' evs htrash h
  · exact importItem_trash cfg oracle ns item "stories" st st' evs htrash h

/-- C6, witness: a concrete trashed post item with non-empty content; its
processing leaves url_map and links empty (and records only the timezone). -/
theorem c6_trash_skipped_witness :
    (⟨[], [], some "D"⟩ : ImportState).urlMap = exState.urlMap ∧
    (⟨[], [], some "D"⟩ : ImportState).links = exState.links ∧
    ([] : List FsEvent) = [] :=
  c6_trash_skipped_amended exCfg exOracle exPhp "wp" c6PostItem exState
    (by decide) (by decide) ⟨[], [], some "D"⟩ [] (by decide)

set_option maxHeartbeats 1000000 in
/-- import_item preserves an already-set timezone (the guard
"self.timezone is None"). -/
theorem importItem_timezone_some (cfg : ImportConfig) (oracle : DateOracle)
    (ns : String) (item : XTree) (out : String) (st st' : ImportState)
    (evs : List FsEvent) (v : String) (htz : st.timezone = some v)
    (h : importItem cfg oracle ns item out st = .ok (st', evs)) :
    st'.timezone = some v := by
  simp only [importItem, htz] at h
  simp only [Option.some_ne_none, and_false, if_false] at h
  repeat' split at h
  all_goals try (injection h with aeq
                 injection aeq with h2 h3
                 subst h2
                 exact htz)
  all_goals injection h

set_option maxHeartbeats 1000000 in
/-- With no timezone set yet, import_item sets exactly the value described by
tzSetterItem: the timezone of the post date, provided the item reaches the
timezone code (present link and resolvable slug) and the date carries
timezone information. -/
theorem importItem_timezone_none (cfg : ImportConfig) (oracle : DateOracle)
    (ns : String) (item : XTree) (out : String) (st st' : ImportState)
    (evs : List FsEvent) (htz : st.timezone = none)
    (h : importItem cfg oracle ns item out st = .ok (st', evs)) :
    st'.timezone = tzSetterItem oracle ns item := by
  simp only [importItem, htz, and_true] at h
  repeat' split at h
  all_goals try (injection h with aeq
                 injection aeq with h2 h3
                 subst h2
                 simp_all [tzSetterItem])
  all_goals injection h

/-- process_item preserves an already-set timezone. -/
theorem processItem_timezone_some (cfg : ImportConfig) (oracle : DateOracle)
    (php : PhpOracle) (ns : String) (item : XTree) (st st' : ImportState)
    (evs : List FsEvent) (v : String) (htz : st.timezone = some v)
    (h : processItem cfg oracle php ns item st = .ok (st', evs)) :
    st'.timezone = some v := by
  simp only [processItem] at h
  split at h
  · rw [(importAttachment_state cfg php ns item st st' evs h).2]
    exact htz
  · split at h
    · exact importItem_timezone_some cfg oracle ns item "posts" st st' evs v htz h
    · exact importItem_timezone_some cfg oracle ns item "stories" st st' evs v htz h

/-- With no timezone set yet, process_item sets exactly tzSetter's value
(attachment items never touch the timezone). -/
theorem processItem_timezone_none (cfg : ImportConfig) (oracle : DateOracle)
    (php : PhpOracle) (ns : String) (item : XTree) (st st' : ImportState)
    (evs : List FsEvent) (htz : st.timezone = none)
    (h : processItem cfg oracle php ns item st = .ok (st', evs)) :
    st'.timezone = tzSetter oracle ns item := by
  simp only [processItem] at h
  split at h
  · rename_i hat
    rw [(importAttachment_state cfg php ns item st st' evs h).2, htz]
    simp only [tzSetter, if_pos hat]
  · rename_i hat
    simp only [tzSetter, if_neg hat]
    split at h
    · exact importItem_timezone_none cfg oracle ns item "posts" st st' evs htz h
    · exact importItem_timezone_none cfg oracle ns item "stories" st st' evs htz h

/-- Over a whole run, an already-set timezone is never changed. -/
theorem runItems_timezone_some (cfg : ImportConfig) (oracle : DateOracle)
    (php : PhpOracle) (ns : String) :
    ∀ (items : List XTree) (st st' : ImportState) (evs : List FsEvent)
      (v : String), st.timezone = some v →
      runItems cfg oracle php ns items st = .ok (st', evs) →
      st'.timezone = some v := by
  intro items
  induction items with
  | nil =>
    intro st st' evs v htz h
    simp only [runItems] at h
    injection h with aeq
    injection aeq with h2 h3
    subst h2
    exact htz
  | cons item rest ih =>
    intro st st' evs v htz h
    simp only [runItems] at h
    split at h
    · injection h
    · rename_i st1 evs1 heq1
      split at h
      · injection h
      · rename_i st2 evs2 heq2
        injection h with aeq
        injection aeq with h2 h3
        subst h2
        exact ih st1 st2 evs2 v
          (processItem_timezone_some cfg oracle php ns item st st1 evs1 v htz heq1)
          heq2

/-- Over a whole run starting with no timezone, the final timezone is the
first value contributed by an item, in processing order. -/
theorem runItems_timezone_none (cfg : ImportConfig) (oracle : DateOracle)
    (php : PhpOracle) (ns : String) :
    ∀ (items : List XTree) (st st' : ImportState) (evs : List FsEvent),
      st.timezone = none →
      runItems cfg oracle php ns items st = .ok (st', evs) →
      st'.timezone = items.findSome? (tzSetter oracle ns) := by
  intro items
  induction items with
  | nil =>
    intro st st' evs htz h
    simp only [runItems] at h
    injection h with aeq
    injection aeq with h2 h3
    subst h2
    simpa using htz
  | cons item rest ih =>
    intro st st' evs htz h
    simp only [runItems] at h
    split at h
    · injection h
    · rename_i st1 evs1 heq1
      split at h
      · injection h
      · rename_i st2 evs2 heq2
        injection h with aeq
        injection aeq with h2 h3
        subst h2
        have h1 := processItem_timezone_none cfg oracle php ns item st st1 evs1 htz heq1
        rw [List.findSome?_cons]
        cases hf : tzSetter oracle ns item with
        | some v =>
          rw [hf] at h1
          exact runItems_timezone_some cfg oracle php ns rest st1 st2 evs2 v h1 heq2
        | none =>
          rw [hf] at h1
          exact ih st1 st2 evs2 h1 heq2

/-- C9, amended: during a run the discovered site timezone is written at most
once — once non-null it is never changed by any later item — and it is set
from the first post/page item that reaches the date-processing code (has a
present link and a resolvable slug) and whose publish date carries timezone
information; an item skipped earlier (e.g. for lack of a derivable slug) does
not contribute even if its date carries timezone information. -/
theorem c9_timezone_amended (cfg : ImportConfig) (oracle : DateOracle)
    (php : PhpOracle) (ns : String) (items : List XTree)
    (st st' : ImportState) (evs : List FsEvent)
    (hrun : runItems cfg oracle php ns items st = .ok (st', evs)) :
    (∀ v, st.timezone = some v → st'.timezone = some v) ∧
    (st.timezone = none →
      st'.timezone = items.findSome? (tzSetter oracle ns)) :=
  ⟨fun v hv => runItems_timezone_some cfg oracle php ns items st st' evs v hv hrun,
   fun hn => runItems_timezone_none cfg oracle php ns items st st' evs hn hrun⟩

/-- C9, witness: a concrete one-item run from the empty state. -/
theorem c9_timezone_witness :
    c9RunState.timezone = [c9ItemB].findSome? (tzSetter exOracle "wp") :=
  (c9_timezone_amended exCfg exOracle exPhp "wp" [c9ItemB] exState c9RunState
    [.writeMeta "out/posts/2012/hello.meta" (some "NO TITLE") "hello"
       (some "BBB") (some "") [],
     .writeContent "out/posts/2012/hello.wp" "hi"]
    (by decide)).2 rfl

/-- C9, counterexample: the timezone is not always set from the first
post/page item whose publish date carries timezone information.  c9ItemA is
processed first and its date "AAA" carries timezone information, but its slug
resolution fails and the item is skipped before the timezone code runs, so
the run's timezone comes from the second item's date "BBB". -/
theorem c9_counterexample :
    (runItems exCfg exOracle exPhp "wp" [c9ItemA, c9ItemB] exState).toOption.map
        (fun p => p.1.timezone) =
      some (some "BBB") ∧
    exOracle.hasTz "AAA" = true ∧
    getTextTag (some c9ItemA) (nsTag "wp" "post_date") none = some "AAA" ∧
    (some "BBB" : Option String) ≠ some (exOracle.tzName "AAA") := by
  decide

end WpImport
